import Mathlib

/-!
Shallow embedding of the Vectory ingestion/retrieval pipeline
(`backend/app/utils/chunking.py`, `backend/app/workers/tasks.py`,
`backend/app/api/routes/vectors.py`, `backend/app/core/embeddings.py`)
together with theorems settling the specification claims.

Strings are modelled as `List Char`, Python ints as `Int`/`Nat`, and Python
floats as `ℚ` (exact rational arithmetic in place of IEEE doubles; none of
the verified claims depends on rounding of binary floating point).
-/

namespace Vectory

/-- Python's whitespace class (`\s`, `str.strip()`): space, tab, newline,
vertical tab, form feed, carriage return (ASCII range). -/
def pyIsSpace (c : Char) : Bool :=
  c = ' ' || c = '\t' || c = '\n' || c = Char.ofNat 11 || c = Char.ofNat 12 || c = '\r'

/-- Python `str.strip()`: drop leading and trailing whitespace. -/
def pyStrip (l : List Char) : List Char :=
  ((l.dropWhile pyIsSpace).reverse.dropWhile pyIsSpace).reverse

/-- Python slice-index normalisation: a negative index counts from the end
(clamped below by 0), a non-negative index is clamped above by the length. -/
def pySliceIndex (len : Nat) (i : Int) : Nat :=
  if i < 0 then (len + i).toNat else min i.toNat len

/-- Python slicing `s[a:b]` (step 1), including negative-index semantics. -/
def pySlice (l : List Char) (a b : Int) : List Char :=
  (l.take (pySliceIndex l.length b)).drop (pySliceIndex l.length a)

/-- Loop body of `fixed_size_chunks` (`chunking.py` lines 17-28), with an
explicit fuel parameter: `none` means the fuel ran out before the `while`
loop finished.  `start` is an `Int` because `start = end - overlap` can go
negative in Python when `overlap > start + chunk_size`. -/
def fixedSizeGo (text : List Char) (chunk_size overlap : Nat) :
    Nat → Int → List (List Char) → Option (List (List Char))
  | 0, _, _ => none
  | fuel + 1, start, chunks =>
    if start < (text.length : Int) then
      let e : Int := start + chunk_size
      let chunk := pyStrip (pySlice text start e)
      let chunks' := if chunk ≠ [] then chunks ++ [chunk] else chunks
      let start' : Int := e - overlap
      if start' ≥ (text.length : Int) then some chunks'
      else if e ≥ (text.length : Int) then some chunks'
      else fixedSizeGo text chunk_size overlap fuel start' chunks'
    else some chunks

/-- The function `fixed_size_chunks(text, chunk_size, overlap)`
(`chunking.py` lines 8-30), run with `fuel` loop iterations. -/
def fixedSizeChunksFuel (text : List Char) (chunk_size overlap fuel : Nat) :
    Option (List (List Char)) :=
  if text = [] then some [] else fixedSizeGo text chunk_size overlap fuel 0 []

/-- The Python call `fixed_size_chunks(text, chunk_size, overlap)` returns
(the `while` loop finishes after finitely many iterations). -/
def fixedTerminates (text : List Char) (chunk_size overlap : Nat) : Prop :=
  ∃ fuel, (fixedSizeChunksFuel text chunk_size overlap fuel).isSome

/-- When `chunk_size ≤ overlap` and the window end stays strictly inside the
text, the window start never advances enough to fire either `break`, so the
`while` loop of `fixed_size_chunks` runs forever. -/
theorem fixedSizeGo_divergent {text : List Char} {chunk_size overlap : Nat}
    (hco : chunk_size ≤ overlap) :
    ∀ fuel (start : Int) chunks, start + chunk_size < (text.length : Int) →
      fixedSizeGo text chunk_size overlap fuel start chunks = none := by
  intro fuel
  induction fuel with
  | zero => intro start chunks _; rfl
  | succ n ih =>
    intro start chunks h
    rw [fixedSizeGo]
    have hlt : start < (text.length : Int) := by omega
    have hnb1 : ¬ (start + chunk_size - overlap ≥ (text.length : Int)) := by omega
    have hnb2 : ¬ (start + (chunk_size : Int) ≥ (text.length : Int)) := by omega
    simp only [hlt, if_true, hnb1, if_false, hnb2]
    exact ih _ _ (by omega)

/-- C2.  The fixed-size chunker does NOT always terminate: on the four
character text `"aaaa"` with `chunk_size = 1 > 0` and `overlap = 1 ≥ 0`
(`overlap ≥ chunk_size`), the window start never advances and neither
`break` condition ever fires, so the loop never returns no matter how many
iterations it is given.  This refutes the claim that the loop exits once the
window start would not reduce remaining unconsumed text. -/
theorem fixed_size_chunks_diverges_when_overlap_eq_chunk_size :
    ∀ fuel, fixedSizeChunksFuel ("aaaa".toList) 1 1 fuel = none := by
  intro fuel
  have h := @fixedSizeGo_divergent ("aaaa".toList) 1 1 (le_refl 1) fuel 0 []
  simp only [fixedSizeChunksFuel]
  rw [if_neg (by decide)]
  exact h (by decide)

theorem pySliceIndex_le (len : Nat) (i : Int) : pySliceIndex len i ≤ len := by
  unfold pySliceIndex; split <;> omega

theorem pySlice_length_le (l : List Char) (a : Int) (cs : Nat) :
    (pySlice l a (a + cs)).length ≤ cs := by
  unfold pySlice pySliceIndex
  simp only [List.length_drop, List.length_take]
  split <;> split <;> omega

theorem pyStrip_length_le (l : List Char) : (pyStrip l).length ≤ l.length := by
  unfold pyStrip
  simp only [List.length_reverse]
  exact le_trans (List.dropWhile_sublist _).length_le
    (by simp only [List.length_reverse]; exact (List.dropWhile_sublist _).length_le)

theorem pyStrip_eq_nil_iff (l : List Char) :
    pyStrip l = [] ↔ ∀ c ∈ l, pyIsSpace c = true := by
  unfold pyStrip
  rw [List.reverse_eq_nil_iff, List.dropWhile_eq_nil_iff]
  constructor
  · intro h c hc
    have hsplit : c ∈ l.takeWhile pyIsSpace ++ l.dropWhile pyIsSpace := by
      rw [List.takeWhile_append_dropWhile]; exact hc
    rcases List.mem_append.mp hsplit with h1 | h2
    · exact List.mem_takeWhile_imp h1
    · exact h c (List.mem_reverse.mpr h2)
  · intro h c hc
    exact h c ((List.dropWhile_sublist _).subset (List.mem_reverse.mp hc))

/-- Splitting `text` at the slice boundaries used by `fixed_size_chunks`:
for `0 ≤ a < len ≤ b`, the text is its prefix before `a` followed by the
window `text[a:b]`. -/
theorem pySlice_decomp (l : List Char) (a b : Int)
    (h0 : 0 ≤ a) (hab : a ≤ b) :
    l.take (pySliceIndex l.length b) =
      l.take (pySliceIndex l.length a) ++ pySlice l a b := by
  have hij : pySliceIndex l.length a ≤ pySliceIndex l.length b := by
    unfold pySliceIndex; split <;> split <;> omega
  unfold pySlice
  have h := List.take_append_drop (pySliceIndex l.length a)
    (l.take (pySliceIndex l.length b))
  rw [List.take_take, min_eq_left hij] at h
  exact h.symm

/-- Partial-correctness invariant for the `fixed_size_chunks` loop: whenever
the loop returns (with any fuel) starting from a state whose pending chunk
list is length-bounded and, if empty, has only seen whitespace so far, the
returned list is nonempty (given the text is not all whitespace) and every
chunk is at most `chunk_size` characters long. -/
theorem fixedSizeGo_sound (text : List Char) (cs ov : Nat)
    (hnb : pyStrip text ≠ []) :
    ∀ fuel (start : Int) chunks res,
      0 ≤ start →
      (chunks = [] → ∀ c ∈ text.take (pySliceIndex text.length start), pyIsSpace c = true) →
      (∀ c ∈ chunks, c.length ≤ cs) →
      fixedSizeGo text cs ov fuel start chunks = some res →
      res ≠ [] ∧ ∀ c ∈ res, c.length ≤ cs := by
  intro fuel
  induction fuel with
  | zero => intro start chunks res _ _ _ hrun; exact absurd hrun (by simp [fixedSizeGo])
  | succ n ih =>
    intro start chunks res h0 hblank hlens hrun
    rw [fixedSizeGo] at hrun
    by_cases hlt : start < (text.length : Int)
    · rw [if_pos hlt] at hrun
      simp only [] at hrun
      -- shared facts about the current window
      have hchunklen : (pyStrip (pySlice text start (start + cs))).length ≤ cs :=
        le_trans (pyStrip_length_le _) (pySlice_length_le text start cs)
      have hlens' : ∀ c ∈ (if pyStrip (pySlice text start (start + cs)) ≠ [] then
          chunks ++ [pyStrip (pySlice text start (start + cs))] else chunks), c.length ≤ cs := by
        split
        · intro c hc
          rcases List.mem_append.mp hc with h1 | h2
          · exact hlens c h1
          · simp only [List.mem_singleton] at h2; subst h2; exact hchunklen
        · exact hlens
      -- if the accumulator is still empty, everything seen so far is whitespace
      have hblank' : (if pyStrip (pySlice text start (start + cs)) ≠ [] then
            chunks ++ [pyStrip (pySlice text start (start + cs))] else chunks) = [] →
          ∀ c ∈ text.take (pySliceIndex text.length (start + cs)), pyIsSpace c = true := by
        intro hempty
        split at hempty
        · exact absurd hempty (by simp)
        · rename_i hchunk
          rw [not_ne_iff] at hchunk
          have hslice : ∀ c ∈ pySlice text start (start + cs), pyIsSpace c = true :=
            (pyStrip_eq_nil_iff _).mp hchunk
          intro c hc
          rw [pySlice_decomp text start (start + cs) h0 (by omega)] at hc
          rcases List.mem_append.mp hc with h1 | h2
          · exact hblank hempty c h1
          · exact hslice c h2
      by_cases hb1 : start + (cs : Int) - ov ≥ (text.length : Int)
      · rw [if_pos hb1] at hrun
        have hres := Option.some.inj hrun
        subst hres
        refine ⟨?_, hlens'⟩
        intro hempty
        have hall := hblank' hempty
        have hjfull : pySliceIndex text.length (start + cs) = text.length := by
          unfold pySliceIndex; split <;> omega
        rw [hjfull, List.take_of_length_le (le_refl _)] at hall
        exact hnb ((pyStrip_eq_nil_iff text).mpr hall)
      · rw [if_neg hb1] at hrun
        by_cases hb2 : start + (cs : Int) ≥ (text.length : Int)
        · rw [if_pos hb2] at hrun
          have hres := Option.some.inj hrun
          subst hres
          refine ⟨?_, hlens'⟩
          intro hempty
          have hall := hblank' hempty
          have hjfull : pySliceIndex text.length (start + cs) = text.length := by
            unfold pySliceIndex; split <;> omega
          rw [hjfull, List.take_of_length_le (le_refl _)] at hall
          exact hnb ((pyStrip_eq_nil_iff text).mpr hall)
        · rw [if_neg hb2] at hrun
          by_cases h0' : 0 ≤ start + (cs : Int) - ov
          · refine ih (start + cs - ov) _ res h0' ?_ hlens' hrun
            intro hempty c hc
            have hmono : pySliceIndex text.length (start + cs - ov) ≤
                pySliceIndex text.length (start + cs) := by
              unfold pySliceIndex; split <;> split <;> omega
            have hc' : c ∈ text.take (pySliceIndex text.length (start + cs)) := by
              have : text.take (pySliceIndex text.length (start + cs - ov)) =
                  (text.take (pySliceIndex text.length (start + cs))).take
                    (pySliceIndex text.length (start + cs - ov)) := by
                rw [List.take_take]; congr 1; omega
              rw [this] at hc
              exact (List.take_sublist _ _).subset hc
            exact hblank' hempty c hc'
          · -- the window start went negative: `chunk_size < overlap`, the loop diverges
            exfalso
            have hco : cs ≤ ov := by omega
            rw [fixedSizeGo_divergent hco n _ _ (by omega)] at hrun
            exact absurd hrun (by simp)
    · rw [if_neg hlt] at hrun
      have hres := Option.some.inj hrun
      subst hres
      refine ⟨?_, hlens⟩
      intro hempty
      have hall := hblank hempty
      have hjfull : pySliceIndex text.length start = text.length := by
        unfold pySliceIndex; split <;> omega
      rw [hjfull, List.take_of_length_le (le_refl _)] at hall
      exact hnb ((pyStrip_eq_nil_iff text).mpr hall)

/-- C9.  For every non-blank text, whenever `fixed_size_chunks(text, size,
overlap)` returns (with any amount of loop fuel), it returns at least one
chunk, and every returned chunk has length at most `size`. -/
theorem fixed_size_chunks_nonempty_and_bounded
    (text : List Char) (size overlap fuel : Nat) (res : List (List Char))
    (hnb : pyStrip text ≠ [])
    (hrun : fixedSizeChunksFuel text size overlap fuel = some res) :
    res ≠ [] ∧ ∀ c ∈ res, c.length ≤ size := by
  have htext : text ≠ [] := by
    intro h; subst h; exact hnb rfl
  rw [fixedSizeChunksFuel, if_neg htext] at hrun
  refine fixedSizeGo_sound text size overlap hnb fuel 0 [] res (le_refl 0) ?_ (by simp) hrun
  intro _ c hc
  simp [pySliceIndex] at hc

/-- Witness for C9: `fixed_size_chunks("hello world", 8, 3)` terminates and
returns the nonempty list of chunks, each at most 8 characters long. -/
theorem fixed_size_chunks_nonempty_and_bounded_witness :
    pyStrip ("hello world".toList) ≠ [] ∧
    ∃ res, fixedSizeChunksFuel ("hello world".toList) 8 3 20 = some res ∧
      res ≠ [] ∧ ∀ c ∈ res, c.length ≤ 8 := by
  refine ⟨by decide, ?_⟩
  rcases hsome : fixedSizeChunksFuel ("hello world".toList) 8 3 20 with _ | res
  · exact absurd hsome (by decide)
  · exact ⟨res, rfl, fixed_size_chunks_nonempty_and_bounded _ 8 3 20 res (by decide) hsome⟩

/-! ### Ingestion worker (`backend/app/workers/tasks.py`, lines 72-121)

The model starts at the point where chunking has produced `n` chunks and the
worker has set `job.status = "processing"` and `job.total_chunks = n`
(lines 36 and 72).  `ok i` tells whether the try block for chunk `i`
(lines 88-111) succeeds; `cancel b` tells whether the `job.status ==
"cancelled"` check at the boundary of the batch starting at chunk index `b`
(line 82) observes a cancellation.  Database commits only persist the
in-memory state and are not modelled separately. -/

/-- Mutable `IngestionJob` fields touched by the worker loop
(`models/ingestion_job.py` lines 28-55). -/
structure JobState where
  status : String
  total_chunks : Nat
  processed_chunks : Nat
  failed_chunks : Nat
deriving DecidableEq

/-- Per-chunk body (tasks.py lines 87-114): the try block either succeeds
(`processed_chunks += 1`) or raises (`failed_chunks += 1`); a per-chunk
failure never aborts the job. -/
def processChunk (ok : Bool) (s : JobState) : JobState :=
  if ok then { s with processed_chunks := s.processed_chunks + 1 }
  else { s with failed_chunks := s.failed_chunks + 1 }

/-- States after each chunk of one batch, processed in order. -/
def chunkStates (ok : Nat → Bool) : List Nat → JobState → List JobState
  | [], _ => []
  | i :: rest, s => processChunk (ok i) s :: chunkStates ok rest (processChunk (ok i) s)

/-- Number of iterations of Python `range(0, n, step)` for `step > 0`. -/
def pyRangeLen (n step : Nat) : Nat := (n + step - 1) / step

/-- Batch loop (tasks.py lines 81-116): `for i in range(0, len(chunks),
batch_size)`, breaking when the cancellation check fires, otherwise
processing the batch `chunks[i : i + batch_size]`.  Returns the job states
after each per-chunk step; `rem` is the number of remaining iterations of
the range, `b` the current batch's starting chunk index. -/
def runBatchesTrace (ok cancel : Nat → Bool) (batch_size n : Nat) :
    Nat → Nat → JobState → List JobState
  | 0, _, _ => []
  | rem + 1, b, s =>
    if cancel b then []
    else
      chunkStates ok (List.range' b (min batch_size (n - b))) s ++
        runBatchesTrace ok cancel batch_size n rem (b + batch_size)
          ((chunkStates ok (List.range' b (min batch_size (n - b))) s).getLastD s)

/-- The worker's processing of `n` chunks (tasks.py lines 72-121): the trace
of job states from the state where `total_chunks` has just been set to `n`,
through every per-chunk step, to the final status write of line 119 (which
assigns `"completed"` in both arms of its conditional, also after a
cancellation `break`). -/
def processJobTrace (ok cancel : Nat → Bool) (n : Nat) : List JobState :=
  let s0 : JobState := ⟨"processing", n, 0, 0⟩
  let body := runBatchesTrace ok cancel 50 n (pyRangeLen n 50) 0 s0
  (s0 :: body) ++ [{ body.getLastD s0 with status := "completed" }]

/-- The job state after the worker's final commit. -/
def processJobFinal (ok cancel : Nat → Bool) (n : Nat) : JobState :=
  (processJobTrace ok cancel n).getLastD ⟨"pending", 0, 0, 0⟩

theorem chunkStates_counts (ok : Nat → Bool) :
    ∀ (idxs : List Nat) (s : JobState), ∀ t ∈ chunkStates ok idxs s,
      t.processed_chunks + t.failed_chunks ≤
        s.processed_chunks + s.failed_chunks + idxs.length ∧
      t.total_chunks = s.total_chunks := by
  intro idxs
  induction idxs with
  | nil => intro s t ht; exact absurd ht (by simp [chunkStates])
  | cons i rest ih =>
    intro s t ht
    rw [chunkStates] at ht
    rcases List.mem_cons.mp ht with h1 | h2
    · subst h1
      unfold processChunk
      split <;> simp <;> omega
    · have hstep : (processChunk (ok i) s).processed_chunks +
          (processChunk (ok i) s).failed_chunks =
            s.processed_chunks + s.failed_chunks + 1 ∧
          (processChunk (ok i) s).total_chunks = s.total_chunks := by
        unfold processChunk; split <;> simp <;> omega
      have := ih (processChunk (ok i) s) t h2
      refine ⟨by simp only [List.length_cons] at *; omega, by rw [this.2, hstep.2]⟩

theorem chunkStates_getLastD_counts (ok : Nat → Bool) :
    ∀ (idxs : List Nat) (s : JobState),
      ((chunkStates ok idxs s).getLastD s).processed_chunks +
        ((chunkStates ok idxs s).getLastD s).failed_chunks =
          s.processed_chunks + s.failed_chunks + idxs.length ∧
      ((chunkStates ok idxs s).getLastD s).total_chunks = s.total_chunks := by
  intro idxs
  induction idxs with
  | nil => intro s; simp [chunkStates]
  | cons i rest ih =>
    intro s
    rw [chunkStates, List.getLastD_cons]
    have hstep : (processChunk (ok i) s).processed_chunks +
        (processChunk (ok i) s).failed_chunks =
          s.processed_chunks + s.failed_chunks + 1 ∧
        (processChunk (ok i) s).total_chunks = s.total_chunks := by
      unfold processChunk; split <;> simp <;> omega
    have := ih (processChunk (ok i) s)
    refine ⟨by simp at this ⊢; omega, by rw [this.2, hstep.2]⟩

theorem getLastD_mem_cons {α : Type _} (x : α) (xs : List α) (d : α) :
    (x :: xs).getLastD d ∈ x :: xs := by
  induction xs generalizing x d with
  | nil => simp
  | cons y ys ih =>
    rw [List.getLastD_cons]
    exact List.mem_cons_of_mem x (ih y x)

theorem runBatchesTrace_inv (ok cancel : Nat → Bool) (bs n : Nat) :
    ∀ (rem b : Nat) (s : JobState),
      s.total_chunks = n →
      s.processed_chunks + s.failed_chunks = min b n →
      ∀ t ∈ runBatchesTrace ok cancel bs n rem b s,
        t.processed_chunks + t.failed_chunks ≤ n ∧ t.total_chunks = n := by
  intro rem
  induction rem with
  | zero => intro b s _ _ t ht; exact absurd ht (by simp [runBatchesTrace])
  | succ m ih =>
    intro b s htot hcnt t ht
    rw [runBatchesTrace] at ht
    split at ht
    · exact absurd ht (by simp)
    · rcases List.mem_append.mp ht with h1 | h2
      · have h := chunkStates_counts ok (List.range' b (min bs (n - b))) s t h1
        rw [List.length_range'] at h
        exact ⟨by omega, by rw [h.2, htot]⟩
      · have hlast := chunkStates_getLastD_counts ok (List.range' b (min bs (n - b))) s
        rw [List.length_range'] at hlast
        refine ih (b + bs) _ (by rw [hlast.2, htot]) (by omega) t h2

/-- C4.  In every state the worker trace reaches after `total_chunks` is set
to the chunk count — across per-chunk successes, per-chunk failures, batch
commits, cancellation breaks and the final completion write — the invariant
`processed_chunks + failed_chunks ≤ total_chunks` holds, for every outcome
pattern `ok` and every cancellation pattern `cancel`. -/
theorem ingestion_job_counts_invariant (ok cancel : Nat → Bool) (n : Nat) :
    ∀ s ∈ processJobTrace ok cancel n,
      s.processed_chunks + s.failed_chunks ≤ s.total_chunks := by
  intro s hs
  unfold processJobTrace at hs
  simp only [] at hs
  have hbody := runBatchesTrace_inv ok cancel 50 n (pyRangeLen n 50) 0
    ⟨"processing", n, 0, 0⟩ rfl (by simp)
  rcases List.mem_append.mp hs with h1 | h2
  · rcases List.mem_cons.mp h1 with h0 | hb
    · subst h0; simp
    · have := hbody s hb
      omega
  · simp only [List.mem_singleton] at h2
    subst h2
    dsimp only
    rcases hlast : runBatchesTrace ok cancel 50 n (pyRangeLen n 50) 0
        ⟨"processing", n, 0, 0⟩ with _ | ⟨x, xs⟩
    · simp [List.getLastD]
    · have hmem := getLastD_mem_cons x xs (⟨"processing", n, 0, 0⟩ : JobState)
      have h := hbody ((x :: xs).getLastD ⟨"processing", n, 0, 0⟩) (hlast.symm ▸ hmem)
      omega

/-- Witness for C4: a three-chunk job in which chunk 1 fails and no
cancellation occurs; the final state is on the trace and satisfies the
invariant. -/
theorem ingestion_job_counts_invariant_witness :
    processJobFinal (fun i => decide (i ≠ 1)) (fun _ => false) 3 ∈
        processJobTrace (fun i => decide (i ≠ 1)) (fun _ => false) 3 ∧
      (processJobFinal (fun i => decide (i ≠ 1)) (fun _ => false) 3).processed_chunks +
          (processJobFinal (fun i => decide (i ≠ 1)) (fun _ => false) 3).failed_chunks ≤
        (processJobFinal (fun i => decide (i ≠ 1)) (fun _ => false) 3).total_chunks := by
  refine ⟨by decide, ?_⟩
  exact ingestion_job_counts_invariant (fun i => decide (i ≠ 1)) (fun _ => false) 3 _ (by decide)

/-- C1.  Evaluation of the worker at the failing input: a 60-chunk job whose
per-chunk steps all succeed and whose cancellation request is observed at
the second batch boundary (after 50 chunks).  The worker does stop at the
boundary and leaves `processed_chunks = 50`, `failed_chunks = 0`
accumulated so far, but line 119 of tasks.py then unconditionally assigns
status `"completed"`, so the job's final status is `"completed"`, not
`"cancelled"` as the claim states. -/
theorem cancelled_job_final_state :
    processJobFinal (fun _ => true) (fun b => decide (50 ≤ b)) 60 =
      ⟨"completed", 60, 50, 0⟩ := by
  decide

/-! ### Retry combinator (`backend/app/core/embeddings.py`, lines 20-65) -/

/-- Observable outcome of one call of the wrapper returned by
`retry_with_exponential_backoff`: the returned value or raised error, the
sequence of `time.sleep` delays, and how many times `func` was invoked.
`Except.error none` models the final `raise last_exception or Exception(...)`
line, reachable only when `max_attempts = 0` (then `last_exception` is
`None`). -/
structure RetryTrace (ε α : Type) where
  result : Except (Option ε) α
  sleeps : List ℚ
  calls : Nat

/-- The `for attempt in range(max_attempts)` loop of the wrapper
(embeddings.py lines 43-60).  `f i` is the outcome of the wrapped
function's `(i+1)`-st invocation (it may differ between invocations, as for
a transiently failing provider call). -/
def retryGo {ε α : Type} (f : Nat → Except ε α) (max_attempts : Nat)
    (exponential_base max_delay : ℚ) :
    Nat → ℚ → List ℚ → Nat → RetryTrace ε α
  | attempt, delay, sleeps, calls =>
    if _h : attempt < max_attempts then
      match f attempt with
      | .ok a => ⟨.ok a, sleeps, calls + 1⟩
      | .error e =>
        if attempt = max_attempts - 1 then ⟨.error (some e), sleeps, calls + 1⟩
        else retryGo f max_attempts exponential_base max_delay (attempt + 1)
          (min (delay * exponential_base) max_delay) (sleeps ++ [delay]) (calls + 1)
    else ⟨.error none, sleeps, calls⟩
termination_by attempt => max_attempts - attempt
decreasing_by omega

/-- The wrapper call `retry_with_exponential_backoff(func, max_attempts,
initial_delay, max_delay, exponential_base)(...)` (embeddings.py lines
20-65). -/
def retryWithExponentialBackoff {ε α : Type} (f : Nat → Except ε α)
    (max_attempts : Nat) (initial_delay max_delay exponential_base : ℚ) :
    RetryTrace ε α :=
  retryGo f max_attempts exponential_base max_delay 0 initial_delay [] 0

/-- Backoff delay sequence as the spec describes it: starts at `d` and is
multiplied by the base and capped at the maximum delay after each attempt.
`iterDelay base max_delay d k` is the delay slept before retrying attempt
`k + 1`. -/
def iterDelay (base max_delay : ℚ) : ℚ → Nat → ℚ
  | d, 0 => d
  | d, k + 1 => iterDelay base max_delay (min (d * base) max_delay) k

theorem iterDelay_range_succ (b M d : ℚ) (m : Nat) :
    (List.range (m + 1)).map (iterDelay b M d) =
      d :: (List.range m).map (iterDelay b M (min (d * b) M)) := by
  rw [List.range_succ_eq_map, List.map_cons, List.map_map]
  rfl

theorem retryGo_calls_le {ε α : Type} (f : Nat → Except ε α)
    (maxA : Nat) (base maxD : ℚ) :
    ∀ (k attempt : Nat), maxA - attempt ≤ k → ∀ delay sleeps calls,
      (retryGo f maxA base maxD attempt delay sleeps calls).calls ≤
        calls + (maxA - attempt) := by
  intro k
  induction k with
  | zero =>
    intro attempt hk delay sleeps calls
    rw [retryGo, dif_neg (by omega)]
    dsimp only
    omega
  | succ m ih =>
    intro attempt hk delay sleeps calls
    rw [retryGo]
    split
    · rename_i hlt
      rcases hf : f attempt with e | a
      · dsimp only
        by_cases hj : attempt = maxA - 1
        · rw [if_pos hj]
          dsimp only
          omega
        · rw [if_neg hj]
          have := ih (attempt + 1) (by omega)
            (min (delay * base) maxD) (sleeps ++ [delay]) (calls + 1)
          omega
      · dsimp only
        omega
    · dsimp only
      omega

theorem retryGo_success {ε α : Type} (f : Nat → Except ε α)
    (maxA : Nat) (base maxD : ℚ) :
    ∀ (k attempt : Nat), maxA - attempt ≤ k →
      ∀ (j : Nat) (a : α) (delay : ℚ) sleeps calls,
      attempt ≤ j → j < maxA →
      (∀ i, attempt ≤ i → i < j → ∃ e, f i = .error e) →
      f j = .ok a →
      retryGo f maxA base maxD attempt delay sleeps calls =
        ⟨.ok a, sleeps ++ (List.range (j - attempt)).map (iterDelay base maxD delay),
          calls + (j - attempt) + 1⟩ := by
  intro k
  induction k with
  | zero => intro attempt hk j a delay sleeps calls h1 h2 _ _; omega
  | succ m ih =>
    intro attempt hk j a delay sleeps calls hle hjm hfail hok
    rw [retryGo, dif_pos (by omega)]
    by_cases hj : attempt = j
    · subst hj
      rw [hok]
      simp
    · obtain ⟨e, he⟩ := hfail attempt (le_refl _) (by omega)
      rw [he]
      simp only []
      rw [if_neg (by omega)]
      rw [ih (attempt + 1) (by omega) j a _ _ _ (by omega) hjm
        (fun i hi1 hi2 => hfail i (by omega) hi2) hok]
      have hsplit : j - attempt = (j - (attempt + 1)) + 1 := by omega
      rw [hsplit, iterDelay_range_succ]
      simp only [List.cons_append, List.append_assoc, List.singleton_append]
      congr 2
      omega

theorem retryGo_allfail {ε α : Type} (f : Nat → Except ε α)
    (maxA : Nat) (base maxD : ℚ) :
    ∀ (k attempt : Nat), maxA - attempt ≤ k →
      ∀ (e : ε) (delay : ℚ) sleeps calls,
      attempt < maxA →
      (∀ i, attempt ≤ i → i < maxA → ∃ ei, f i = .error ei) →
      f (maxA - 1) = .error e →
      (retryGo f maxA base maxD attempt delay sleeps calls).result = .error (some e) ∧
      (retryGo f maxA base maxD attempt delay sleeps calls).calls =
        calls + (maxA - attempt) := by
  intro k
  induction k with
  | zero => intro attempt hk e delay sleeps calls h1 _ _; omega
  | succ m ih =>
    intro attempt hk e delay sleeps calls hlt hfail hlast
    rw [retryGo, dif_pos hlt]
    by_cases hj : attempt = maxA - 1
    · subst hj
      rw [hlast]
      dsimp only
      rw [if_pos rfl]
      refine ⟨rfl, ?_⟩
      dsimp only
      omega
    · obtain ⟨ei, he⟩ := hfail attempt (le_refl _) hlt
      rw [he]
      simp only []
      rw [if_neg hj]
      have := ih (attempt + 1) (by omega) e
        (min (delay * base) maxD) (sleeps ++ [delay]) (calls + 1) (by omega)
        (fun i hi1 hi2 => hfail i (by omega) hi2) hlast
      exact ⟨this.1, by omega⟩

/-- C8.  The retry combinator invokes the wrapped operation at most
`max_attempts` times; if attempts `0..j-1` fail and attempt `j` succeeds,
the success value is returned after exactly `j + 1` invocations, with the
recorded sleeps following the delay sequence that starts at
`initial_delay`, is multiplied by `exponential_base` each attempt and is
capped at `max_delay`; and if every attempt fails, the final attempt's
error propagates unmasked after exactly `max_attempts` invocations. -/
theorem retry_with_exponential_backoff_spec {ε α : Type}
    (f : Nat → Except ε α) (max_attempts : Nat)
    (initial_delay max_delay exponential_base : ℚ) :
    (retryWithExponentialBackoff f max_attempts initial_delay max_delay
        exponential_base).calls ≤ max_attempts ∧
    (∀ (j : Nat) (a : α), j < max_attempts →
      (∀ i, i < j → ∃ e, f i = .error e) → f j = .ok a →
      retryWithExponentialBackoff f max_attempts initial_delay max_delay
          exponential_base =
        ⟨.ok a, (List.range j).map (iterDelay exponential_base max_delay initial_delay),
          j + 1⟩) ∧
    (∀ e : ε, 0 < max_attempts →
      (∀ i, i < max_attempts → ∃ ei, f i = .error ei) →
      f (max_attempts - 1) = .error e →
      (retryWithExponentialBackoff f max_attempts initial_delay max_delay
          exponential_base).result = .error (some e) ∧
      (retryWithExponentialBackoff f max_attempts initial_delay max_delay
          exponential_base).calls = max_attempts) := by
  unfold retryWithExponentialBackoff
  refine ⟨?_, ?_, ?_⟩
  · have := retryGo_calls_le f max_attempts exponential_base max_delay
      max_attempts 0 (by omega) initial_delay [] 0
    omega
  · intro j a hj hfail hok
    have := retryGo_success f max_attempts exponential_base max_delay
      max_attempts 0 (by omega) j a initial_delay [] 0 (by omega) hj
      (fun i _ hi2 => hfail i hi2) hok
    simpa using this
  · intro e hpos hfail hlast
    have := retryGo_allfail f max_attempts exponential_base max_delay
      max_attempts 0 (by omega) e initial_delay [] 0 hpos
      (fun i _ hi2 => hfail i hi2) hlast
    exact ⟨this.1, by omega⟩

/-- A wrapped operation that fails on its first two invocations and
succeeds on the third, as in the spec's retry test property. -/
def retryDemo (n : Nat) : Except String Nat :=
  if n < 2 then .error "transient failure" else .ok 42

/-- Witness for C8: under `max_attempts = 5`, `initial_delay = 1`,
`max_delay = 60`, `exponential_base = 2`, the demo operation's success is
returned after 3 invocations and the recorded sleeps are `[1, 2]`. -/
theorem retry_with_exponential_backoff_spec_witness :
    retryWithExponentialBackoff retryDemo 5 1 60 2 =
        ⟨.ok 42, (List.range 2).map (iterDelay 2 60 1), 3⟩ ∧
      (List.range 2).map (iterDelay 2 60 1) = [1, 2] ∧
      (retryWithExponentialBackoff retryDemo 5 1 60 2).calls ≤ 5 := by
  have h := retry_with_exponential_backoff_spec retryDemo 5 1 60 2
  refine ⟨h.2.1 2 42 (by omega)
      (fun i hi => ⟨"transient failure", by interval_cases i <;> rfl⟩) rfl,
    ?_, h.1⟩
  show [iterDelay 2 60 1 0, iterDelay 2 60 1 1] = [1, 2]
  rw [iterDelay, iterDelay, iterDelay]
  norm_num

/-! ### Vector fingerprint (`backend/app/api/routes/vectors.py`, lines 35-37) -/

/-- Round half-to-even of a rational to an integer, as Python's numeric
formatting and `round` do at the final kept digit. -/
def roundHalfEven (q : ℚ) : ℤ :=
  if q - ⌊q⌋ < 1/2 then ⌊q⌋
  else if 1/2 < q - ⌊q⌋ then ⌊q⌋ + 1
  else if Even ⌊q⌋ then ⌊q⌋ else ⌊q⌋ + 1

/-- Python `f"{v:.8f}"`: fixed-point rendering of the value with exactly
eight decimal digits, the value rounded half-to-even at the eighth
decimal. -/
def pyFormat8 (q : ℚ) : List Char :=
  (if q < 0 then ['-'] else []) ++
    Nat.toDigits 10 ((roundHalfEven (q * 100000000)).natAbs / 100000000) ++
    '.' :: (List.replicate
        (8 - (Nat.toDigits 10 ((roundHalfEven (q * 100000000)).natAbs % 100000000)).length) '0' ++
      Nat.toDigits 10 ((roundHalfEven (q * 100000000)).natAbs % 100000000))

/-- Stand-in for the external `hashlib.sha256(...).hexdigest()` call.  The
development relies only on it being a fixed function of its input string,
which holds for any digest function. -/
def sha256Hex (s : List Char) : List Char := s

/-- The function `_fingerprint(vector)` (vectors.py lines 35-37):
`sha256(",".join(f"{v:.8f}" for v in vector)).hexdigest()`. -/
def _fingerprint (vector : List ℚ) : List Char :=
  sha256Hex (List.intercalate [','] (vector.map pyFormat8))

theorem pyFormat8_nano_eq :
    pyFormat8 ((1 : ℚ)/1000000000) = pyFormat8 ((2 : ℚ)/1000000000) := by
  have h1 : roundHalfEven ((1 : ℚ)/1000000000 * 100000000) = 0 := by
    unfold roundHalfEven
    norm_num
  have h2 : roundHalfEven ((2 : ℚ)/1000000000 * 100000000) = 0 := by
    unfold roundHalfEven
    norm_num
  unfold pyFormat8
  rw [h1, h2, if_neg (by norm_num), if_neg (by norm_num)]

/-- C3 counterexample.  Changing a single component does NOT always change
the fingerprint: the one-component vectors `[1e-9]` and `[2e-9]` differ in
their only component, yet both components render as `"0.00000000"` under
the fixed-precision `%.8f` formatting, so the joined digest input — and
hence the fingerprint — is identical. -/
theorem fingerprint_collision_on_distinct_vectors :
    ((1 : ℚ)/1000000000 ≠ (2 : ℚ)/1000000000) ∧
      _fingerprint [(1 : ℚ)/1000000000] = _fingerprint [(2 : ℚ)/1000000000] := by
  constructor
  · norm_num
  · unfold _fingerprint
    rw [List.map_singleton, List.map_singleton, pyFormat8_nano_eq]

/-- C3 (amended).  The fingerprint is a function of the fixed-precision
renderings of the vector's component values: vectors whose components all
render identically under `%.8f` — in particular vectors with identical
`values` — produce identical fingerprints.  (Changing a component changes
the fingerprint only when some rendering changes; see the
counterexample.) -/
theorem fingerprint_function_of_rendered_values (v w : List ℚ)
    (h : v.map pyFormat8 = w.map pyFormat8) :
    _fingerprint v = _fingerprint w := by
  unfold _fingerprint
  rw [h]

/-- Witness for the amended C3 theorem at the concrete vectors `[1e-9]` and
`[2e-9]`. -/
theorem fingerprint_function_of_rendered_values_witness :
    ([(1 : ℚ)/1000000000].map pyFormat8 = [(2 : ℚ)/1000000000].map pyFormat8) ∧
      _fingerprint [(1 : ℚ)/1000000000] = _fingerprint [(2 : ℚ)/1000000000] := by
  have hmap : [(1 : ℚ)/1000000000].map pyFormat8 = [(2 : ℚ)/1000000000].map pyFormat8 := by
    rw [List.map_singleton, List.map_singleton, pyFormat8_nano_eq]
  exact ⟨hmap, fingerprint_function_of_rendered_values _ _ hmap⟩

/-! ### Retrieval/scoring engine (`backend/app/api/routes/vectors.py`) -/

/-- Distance-to-score transformation applied to each similarity-search
result row (vectors.py lines 261-266). -/
def computeScore (metric : String) (distance : ℚ) : ℚ :=
  if metric = "cosine" then 1 - distance
  else if metric = "dot_product" then -distance
  else 1 / (1 + distance)

/-- Python `round(x, 6)` applied to scores and distances before emission
(vectors.py line 270). -/
def pyRound6 (q : ℚ) : ℚ := (roundHalfEven (q * 1000000) : ℚ) / 1000000

/-- C6.  The raw store distance is transformed into the score exactly as
the spec states: `cosine` gives `1 − d`, `dot_product` gives `−d`, every
other metric (euclidean) gives `1 / (1 + d)`; in particular a cosine
distance of `0.2` yields score `0.8`, also after the `round(·, 6)` applied
on emission. -/
theorem similarity_score_transformation (metric : String) (d : ℚ) :
    computeScore "cosine" d = 1 - d ∧
    computeScore "dot_product" d = -d ∧
    (metric ≠ "cosine" → metric ≠ "dot_product" → computeScore metric d = 1 / (1 + d)) ∧
    computeScore "cosine" (1/5) = 4/5 ∧
    pyRound6 (computeScore "cosine" (1/5)) = 4/5 := by
  refine ⟨?_, ?_, ?_, ?_, ?_⟩
  · rw [computeScore, if_pos rfl]
  · rw [computeScore, if_neg (by decide), if_pos rfl]
  · intro h1 h2
    rw [computeScore, if_neg h1, if_neg h2]
  · rw [computeScore, if_pos rfl]
    norm_num
  · rw [computeScore, if_pos rfl]
    unfold pyRound6 roundHalfEven
    norm_num

/-- Witness for C6 at the concrete metric `"euclidean"` and distance
`0.2`. -/
theorem similarity_score_transformation_witness :
    computeScore "euclidean" (1/5) = 1 / (1 + 1/5) :=
  (similarity_score_transformation "euclidean" (1/5)).2.2.1 (by decide) (by decide)

/-! ### Search endpoints (`backend/app/api/routes/vectors.py`, lines 189-407)

The database is abstracted as an oracle `store` from the structured query
the endpoint builds to the rows the store returns; `embed` abstracts
`EmbeddingProvider.get_embedding` (text, model, dimension).  Wall-clock
latency and generated UUIDs are not modelled. -/

/-- Collection fields the search endpoints read. -/
structure Collection where
  dimension : Nat
  distance_metric : String
  embedding_model : String

/-- `QueryRequest` (schemas/search.py): similarity-search payload. -/
structure QueryRequest where
  vector : Option (List ℚ)
  text : Option String
  top_k : Nat
  distance_metric : Option String
  filters : Option String
deriving DecidableEq

/-- `HybridSearchRequest` (schemas/search.py): hybrid-search payload with
caller-configurable weights (defaults 0.7/0.3). -/
structure HybridSearchRequest where
  vector : Option (List ℚ)
  text : Option String
  top_k : Nat
  distance_metric : Option String
  filters : Option String
  vector_weight : ℚ
  text_weight : ℚ

/-- A row fetched from the store; `value` is the computed column of the
query (`distance` for the similarity query, `combined_score` for the hybrid
queries), `none` modelling SQL NULL. -/
structure Row where
  id : Nat
  metadata : Option String
  text_content : Option String
  value : Option ℚ
deriving DecidableEq

/-- The SQL queries the endpoints execute, by their parameters. -/
inductive SqlQuery where
  | sim (op : String) (vector : List ℚ) (filters : Option String) (top_k : Nat)
  | combined (op : String) (vector : List ℚ) (queryText : String) (vw tw : ℚ) (top_k : Nat)
  | textRank (queryText : String) (top_k : Nat)
deriving DecidableEq

/-- `SearchResult` (schemas/search.py) as the endpoints populate it. -/
structure SearchResult where
  id : Nat
  score : ℚ
  distance : Option ℚ
  metadata : Option String
  text_content : Option String
deriving DecidableEq

/-- The `Query` analytics record written once per executed search. -/
structure QueryRecord where
  query_vector : Option (List ℚ)
  query_text : Option String
  results_count : Nat
  filters : Option String
deriving DecidableEq

/-- `QueryResponse` (schemas/search.py), with the analytics record the
endpoint adds to the session. -/
structure QueryResponse where
  results : List SearchResult
  total : Nat
  analytics : QueryRecord
  distance_metric : String
deriving DecidableEq

/-- An HTTP error raised by an endpoint. -/
structure HttpError where
  status_code : Nat
  detail : String
deriving DecidableEq

/-- Distance-operator selection of `similarity_search` (vectors.py lines
217-224): unknown metrics fall back to the cosine operator. -/
def simOp (metric : String) : String :=
  if metric = "cosine" then "<=>"
  else if metric = "euclidean" then "<->"
  else if metric = "dot_product" then "<#>"
  else "<=>"

/-- Distance-operator selection of `hybrid_search` (vectors.py lines
315-320): its `else` arm is the dot-product operator. -/
def hybridOp (metric : String) : String :=
  if metric = "cosine" then "<=>"
  else if metric = "euclidean" then "<->"
  else "<#>"

/-- `similarity_search` (vectors.py lines 189-294) over an abstract store
and embedding provider. -/
def similaritySearch (embed : String → String → Nat → List ℚ)
    (store : SqlQuery → List Row) (collection : Collection)
    (payload : QueryRequest) : Except HttpError QueryResponse :=
  if payload.vector = none ∧ payload.text = none then
    .error ⟨400, "Either 'vector' or 'text' must be provided."⟩
  else
    let query_vector := match payload.vector with
      | some v => v
      | none => embed (payload.text.getD "") collection.embedding_model collection.dimension
    if query_vector.length ≠ collection.dimension then
      .error ⟨400, "Query vector dimension " ++ toString query_vector.length ++
        " doesn't match collection dimension " ++ toString collection.dimension⟩
    else
      let metric := payload.distance_metric.getD collection.distance_metric
      let rows := store (.sim (simOp metric) query_vector payload.filters payload.top_k)
      let results := rows.map (fun r =>
        { id := r.id
          score := pyRound6 (computeScore metric (r.value.getD 0))
          distance := some (pyRound6 (r.value.getD 0))
          metadata := r.metadata
          text_content := r.text_content })
      .ok { results := results
            total := results.length
            analytics := { query_vector := some query_vector
                           query_text := payload.text
                           results_count := results.length
                           filters := payload.filters }
            distance_metric := metric }

/-- Python truthiness test `payload.text is not None and payload.text.strip() != ""`
(vectors.py line 324). -/
def hasUsableText (t : Option String) : Bool :=
  match t with
  | none => false
  | some s => pyStrip s.toList ≠ []

/-- `hybrid_search` (vectors.py lines 302-407) over the same abstract store
and embedding provider.  When no vector+text combination applies, its
`else` branch delegates to `similarity_search` with a `QueryRequest`
carrying the same vector, top_k, filters and distance metric (text left at
its default `None`). -/
def hybridSearch (embed : String → String → Nat → List ℚ)
    (store : SqlQuery → List Row) (collection : Collection)
    (payload : HybridSearchRequest) : Except HttpError QueryResponse :=
  if payload.vector = none ∧ payload.text = none then
    .error ⟨400, "Either 'vector' or 'text' must be provided."⟩
  else
    let metric := payload.distance_metric.getD collection.distance_metric
    let has_vector := payload.vector.isSome
    let has_text := hasUsableText payload.text
    if has_vector ∧ has_text then
      let rows := store (.combined (hybridOp metric) (payload.vector.getD [])
        (payload.text.getD "") payload.vector_weight payload.text_weight payload.top_k)
      let results := rows.map (fun r =>
        { id := r.id
          score := pyRound6 (r.value.getD 0)
          distance := none
          metadata := r.metadata
          text_content := r.text_content })
      .ok { results := results
            total := results.length
            analytics := { query_vector := payload.vector
                           query_text := payload.text
                           results_count := results.length
                           filters := payload.filters }
            distance_metric := metric }
    else if has_text then
      let rows := store (.textRank (payload.text.getD "") payload.top_k)
      let results := rows.map (fun r =>
        { id := r.id
          score := pyRound6 (r.value.getD 0)
          distance := none
          metadata := r.metadata
          text_content := r.text_content })
      .ok { results := results
            total := results.length
            analytics := { query_vector := payload.vector
                           query_text := payload.text
                           results_count := results.length
                           filters := payload.filters }
            distance_metric := metric }
    else
      similaritySearch embed store collection
        ⟨payload.vector, none, payload.top_k, payload.distance_metric, payload.filters⟩

/-- C7.  A hybrid-search request that supplies a vector but no usable text
returns exactly what similarity search returns for the same vector, top_k,
filters and distance metric — the whole response, so in particular the same
score computation and the same analytics record. -/
theorem hybrid_search_vector_only_is_similarity_search
    (embed : String → String → Nat → List ℚ) (store : SqlQuery → List Row)
    (collection : Collection) (payload : HybridSearchRequest)
    (hv : payload.vector.isSome = true)
    (ht : hasUsableText payload.text = false) :
    hybridSearch embed store collection payload =
      similaritySearch embed store collection
        ⟨payload.vector, none, payload.top_k, payload.distance_metric, payload.filters⟩ := by
  unfold hybridSearch
  rw [if_neg (by
    rintro ⟨h1, -⟩
    rw [h1] at hv
    exact absurd hv (by decide))]
  rw [if_neg (by rw [hv, ht]; decide), if_neg (by rw [ht]; decide)]

/-- Witness for C7: a concrete collection and hybrid payload carrying a
vector and blank text (`"  "`), with a one-row store. -/
theorem hybrid_search_vector_only_is_similarity_search_witness :
    hybridSearch (fun _ _ _ => []) (fun _ => [⟨7, none, some "doc", some (1/5)⟩])
        ⟨2, "cosine", "mock-embedding"⟩
        ⟨some [1, 0], some "  ", 5, none, none, 7/10, 3/10⟩ =
      similaritySearch (fun _ _ _ => []) (fun _ => [⟨7, none, some "doc", some (1/5)⟩])
        ⟨2, "cosine", "mock-embedding"⟩ ⟨some [1, 0], none, 5, none, none⟩ :=
  hybrid_search_vector_only_is_similarity_search _ _ _ _ (by decide) (by decide)

/-- C10.  With both a vector and non-blank text supplied, `hybrid_search`
performs no dimension validation: even when the vector's length differs
from the collection's dimension it proceeds to execute the combined query
and returns a 200 response, whereas `similarity_search` rejects the same
vector with the 400 dimension-mismatch error. -/
theorem hybrid_search_combined_skips_dimension_check
    (embed : String → String → Nat → List ℚ) (store : SqlQuery → List Row)
    (collection : Collection) (payload : HybridSearchRequest) (v : List ℚ) (t : String)
    (hv : payload.vector = some v)
    (ht : payload.text = some t)
    (htu : pyStrip t.toList ≠ [])
    (hdim : v.length ≠ collection.dimension) :
    (∃ resp, hybridSearch embed store collection payload = .ok resp) ∧
      similaritySearch embed store collection
          ⟨some v, none, payload.top_k, payload.distance_metric, payload.filters⟩ =
        .error ⟨400, "Query vector dimension " ++ toString v.length ++
          " doesn't match collection dimension " ++ toString collection.dimension⟩ := by
  constructor
  · unfold hybridSearch
    rw [if_neg (by rintro ⟨h1, -⟩; rw [h1] at hv; exact absurd hv (by simp))]
    rw [if_pos (by rw [hv, ht]; exact ⟨rfl, decide_eq_true htu⟩)]
    exact ⟨_, rfl⟩
  · unfold similaritySearch
    rw [if_neg (by rintro ⟨h1, -⟩; exact absurd h1 (by simp))]
    simp only []
    rw [if_pos hdim]

/-- Witness for C10: a dimension-3 collection queried with the length-2
vector `[1, 0]` and the non-blank text `"hello"`. -/
theorem hybrid_search_combined_skips_dimension_check_witness :
    (∃ resp, hybridSearch (fun _ _ _ => []) (fun _ => [])
        ⟨3, "cosine", "mock-embedding"⟩
        ⟨some [1, 0], some "hello", 10, none, none, 7/10, 3/10⟩ = .ok resp) ∧
      similaritySearch (fun _ _ _ => []) (fun _ => [])
          ⟨3, "cosine", "mock-embedding"⟩ ⟨some [1, 0], none, 10, none, none⟩ =
        .error ⟨400, "Query vector dimension " ++ toString (2 : Nat) ++
          " doesn't match collection dimension " ++ toString (3 : Nat)⟩ :=
  hybrid_search_combined_skips_dimension_check _ _ _ _ [1, 0] "hello"
    rfl rfl (by decide) (by decide)

/-! ### Sentence, paragraph and markdown chunkers
(`backend/app/utils/chunking.py`, lines 33-229) -/

/-- Split at the regex `(?<=[.!?])\s+` (chunking.py line 39): a maximal
whitespace run preceded by sentence-ending punctuation separates two
pieces.  `acc` holds the current piece reversed, so its head is the
lookbehind character. -/
def sentSplitGo : List Char → List Char → List (List Char)
  | [], acc => [acc.reverse]
  | c :: rest, acc =>
    if pyIsSpace c ∧ (acc.head? = some '.' ∨ acc.head? = some '!' ∨ acc.head? = some '?') then
      acc.reverse :: sentSplitGo (rest.dropWhile pyIsSpace) []
    else sentSplitGo rest (c :: acc)
termination_by l _ => l.length
decreasing_by
  · have h := (List.dropWhile_sublist (l := rest) pyIsSpace).length_le
    simp only [List.length_cons]
    omega
  · simp only [List.length_cons]
    omega

/-- Accumulation loop of `sentence_chunks` (chunking.py lines 45-63),
carrying the last `overlap` sentences forward on emission. -/
def sentAccum (cs ov : Nat) :
    List (List Char) → List (List Char) → List (List Char) → Nat → List (List Char)
  | [], chunks, cur, _ =>
    if cur ≠ [] then chunks ++ [List.intercalate [' '] cur] else chunks
  | s :: rest, chunks, cur, size =>
    if cs < size + s.length ∧ cur ≠ [] then
      sentAccum cs ov rest (chunks ++ [List.intercalate [' '] cur])
        ((if 0 < min ov cur.length then cur.drop (cur.length - min ov cur.length) else []) ++ [s])
        (((if 0 < min ov cur.length then cur.drop (cur.length - min ov cur.length) else []).map
            List.length).sum + s.length)
    else sentAccum cs ov rest chunks (cur ++ [s]) (size + s.length)

/-- The function `sentence_chunks(text, chunk_size, overlap)` (chunking.py
lines 33-65). -/
def sentenceChunks (text : List Char) (cs ov : Nat) : List (List Char) :=
  if text = [] then []
  else
    let sentences := ((sentSplitGo text []).map pyStrip).filter (fun s => s ≠ [])
    if sentences = [] then (if pyStrip text ≠ [] then [pyStrip text] else [])
    else sentAccum cs ov sentences [] [] 0

/-- Index of the last `'\n'` in a list, if any. -/
def lastNewlineIdx (l : List Char) : Option Nat :=
  (l.reverse.findIdx? (fun c => c = '\n')).map (fun i => l.length - 1 - i)

/-- Split at the regex `\n\s*\n` (chunking.py line 73): a newline, then a
greedy whitespace run whose last newline closes the match. -/
def paraSplitGo : List Char → List Char → List (List Char)
  | [], acc => [acc.reverse]
  | c :: rest, acc =>
    if c = '\n' then
      match lastNewlineIdx (rest.takeWhile pyIsSpace) with
      | some j => acc.reverse :: paraSplitGo (rest.drop (j + 1)) []
      | none => paraSplitGo rest (c :: acc)
    else paraSplitGo rest (c :: acc)
termination_by l _ => l.length
decreasing_by
  · simp only [List.length_cons, List.length_drop]
    omega
  · simp only [List.length_cons]
    omega
  · simp only [List.length_cons]
    omega

/-- Accumulation loop of `paragraph_chunks` (chunking.py lines 79-95): no
inter-chunk overlap of paragraphs. -/
def paraAccum (cs : Nat) :
    List (List Char) → List (List Char) → List (List Char) → Nat → List (List Char)
  | [], chunks, cur, _ =>
    if cur ≠ [] then chunks ++ [List.intercalate ('\n' :: ['\n']) cur] else chunks
  | p :: rest, chunks, cur, size =>
    if cs < size + p.length ∧ cur ≠ [] then
      paraAccum cs rest (chunks ++ [List.intercalate ('\n' :: ['\n']) cur]) [p] p.length
    else paraAccum cs rest chunks (cur ++ [p]) (size + p.length)

/-- The function `paragraph_chunks(text, chunk_size)` (chunking.py lines
68-97). -/
def paragraphChunks (text : List Char) (cs : Nat) : List (List Char) :=
  if text = [] then []
  else
    let paragraphs := ((paraSplitGo text []).map pyStrip).filter (fun p => p ≠ [])
    if paragraphs = [] then (if pyStrip text ≠ [] then [pyStrip text] else [])
    else paraAccum cs paragraphs [] [] 0

/-- Match of a line against the regex `^(#{1,6})\s+(.+)$` (chunking.py line
132), returning the heading level and the stripped title.  The line matches
exactly when its leading run of 1-6 `#` marks is followed by a whitespace
character and at least one further character; `group(2).strip()` equals the
stripped remainder after the marks. -/
def headerMatch (line : List Char) : Option (Nat × List Char) :=
  if 1 ≤ (line.takeWhile (fun c => c = '#')).length ∧
      (line.takeWhile (fun c => c = '#')).length ≤ 6 then
    match line.drop (line.takeWhile (fun c => c = '#')).length with
    | c1 :: c2 :: rest =>
      if pyIsSpace c1 then
        some ((line.takeWhile (fun c => c = '#')).length, pyStrip (c1 :: c2 :: rest))
      else none
    | _ => none
  else none

/-- Update of the header hierarchy on a heading at `level` (chunking.py
lines 141-146): `current_headers[level] = title` then deletion of every
deeper level. -/
def updateHeaders (headers : Nat → Option (List Char)) (level : Nat) (title : List Char) :
    Nat → Option (List Char) :=
  fun l => if l = level then some title else if level < l then none else headers l

/-- Rendering of one active heading inside a breadcrumb, with its original
marker depth (`_build_breadcrumb`, chunking.py lines 110-111). -/
def renderHeader (level : Nat) (title : List Char) : List Char :=
  List.replicate level '#' ++ ' ' :: title

/-- The function `_build_breadcrumb(headers, current_level)` (chunking.py
lines 100-112): all active headings of level at most `current_level`, from
shallowest to deepest, joined by `" > "`. -/
def buildBreadcrumb (headers : Nat → Option (List Char)) (current_level : Nat) : List Char :=
  List.intercalate (' ' :: '>' :: [' '])
    (([1, 2, 3, 4, 5, 6].filter (fun l => l ≤ current_level)).filterMap
      (fun l => (headers l).map (renderHeader l)))

/-- Step 1 of `markdown_chunks` (chunking.py lines 125-156): parse the
lines into `(breadcrumb, content)` sections, tracking the header stack. -/
def parseSections :
    List (List Char) → (Nat → Option (List Char)) → List (List Char) → Nat →
      List ((List Char) × (List Char)) → List ((List Char) × (List Char))
  | [], headers, contentLines, curLevel, acc =>
    if pyStrip (List.intercalate ['\n'] contentLines) ≠ [] ∨ 0 < curLevel then
      acc ++ [(buildBreadcrumb headers curLevel, pyStrip (List.intercalate ['\n'] contentLines))]
    else acc
  | line :: rest, headers, contentLines, curLevel, acc =>
    match headerMatch line with
    | some (level, title) =>
      parseSections rest (updateHeaders headers level title) [] level
        (if pyStrip (List.intercalate ['\n'] contentLines) ≠ [] ∨ 0 < curLevel then
          acc ++ [(buildBreadcrumb headers curLevel,
            pyStrip (List.intercalate ['\n'] contentLines))]
        else acc)
    | none => parseSections rest headers (contentLines ++ [line]) curLevel acc

/-- Full text of one section (chunking.py lines 170-176). -/
def sectionText (breadcrumb content : List Char) : List Char :=
  if breadcrumb ≠ [] ∧ content ≠ [] then breadcrumb ++ '\n' :: '\n' :: content
  else if breadcrumb ≠ [] then breadcrumb
  else content

/-- Step 2 of `markdown_chunks` (chunking.py lines 162-214): combine small
sections while the combined length stays within `chunk_size`; split a large
section with the paragraph strategy (falling back to sentences), re-prefix
every sub-chunk with the breadcrumb. -/
def assembleGo (cs : Nat) :
    List ((List Char) × (List Char)) → List (List Char) → List Char → List (List Char)
  | [], chunks, pending => if pending ≠ [] then chunks ++ [pending] else chunks
  | (breadcrumb, content) :: rest, chunks, pending =>
    if content = [] ∧ breadcrumb = [] then assembleGo cs rest chunks pending
    else
      if cs < (sectionText breadcrumb content).length then
        let chunks₁ := if pending ≠ [] then chunks ++ [pending] else chunks
        let innerSize := max (cs - (if breadcrumb ≠ [] then breadcrumb.length + 2 else 0)) 100
        let sub1 := paragraphChunks content innerSize
        let sub2 := if sub1 = [] ∨ sub1.any (fun sc => innerSize < sc.length) then
            sentenceChunks content innerSize 1
          else sub1
        let sub3 := if sub2 = [] then [content] else sub2
        assembleGo cs rest
          (chunks₁ ++ sub3.map (fun sc =>
            if breadcrumb ≠ [] then breadcrumb ++ '\n' :: '\n' :: sc else sc)) []
      else
        if (if pending ≠ [] then pending ++ '\n' :: '\n' :: sectionText breadcrumb content
            else sectionText breadcrumb content).length ≤ cs then
          assembleGo cs rest chunks
            (if pending ≠ [] then pending ++ '\n' :: '\n' :: sectionText breadcrumb content
             else sectionText breadcrumb content)
        else
          assembleGo cs rest (if pending ≠ [] then chunks ++ [pending] else chunks)
            (sectionText breadcrumb content)

/-- The function `markdown_chunks(text, chunk_size, overlap)` (chunking.py
lines 115-216); `overlap` is accepted and unused, as in the source. -/
def markdownChunks (text : List Char) (chunk_size overlap : Nat) : List (List Char) :=
  if pyStrip text = [] then []
  else
    let sections := parseSections (text.splitOn '\n') (fun _ => none) [] 0 []
    if sections = [] then (if pyStrip text ≠ [] then [pyStrip text] else [])
    else assembleGo chunk_size sections [] []

/-- Contiguous-substring test: `pat` occurs in `s`. -/
def containsSeg (pat s : List Char) : Bool :=
  (List.range (s.length + 1)).any (fun i => (s.drop i).take pat.length == pat)

/-- The spec's header-aware chunking example. -/
def mdExample : List Char := "## Parent\n\nIntro.\n\n### Child\n\nChild content.".toList

/-- C5.  A heading at level `L` replaces any active heading at level `≥ L`
and keeps headings at level `< L`; breadcrumbs concatenate the active
headings from shallowest to the current level with their original `#`
depth, joined by `" > "`; and chunking the spec's example document yields a
chunk containing `"Child content"` whose text also contains `"## Parent"`
and `"### Child"`. -/
theorem markdown_header_stack_and_breadcrumb :
    (∀ (headers : Nat → Option (List Char)) (L : Nat) (t : List Char) (l : Nat),
      updateHeaders headers L t l =
        if l < L then headers l else if l = L then some t else none) ∧
    (∃ c ∈ markdownChunks mdExample 1000 0,
      containsSeg ("Child content".toList) c = true ∧
      containsSeg ("## Parent".toList) c = true ∧
      containsSeg ("### Child".toList) c = true) := by
  constructor
  · intro headers L t l
    unfold updateHeaders
    rcases lt_trichotomy l L with h | h | h
    · rw [if_neg (by omega), if_neg (by omega), if_pos h]
    · subst h
      rw [if_pos rfl, if_neg (by omega), if_pos rfl]
    · rw [if_neg (by omega), if_pos h, if_neg (by omega), if_neg (by omega)]
  · decide

end Vectory
